import Mathlib

/-!
Verification of the simplestreams catalog-and-proxy Cloudflare worker
(`cloudflare-worker.js`).  Strings are modelled with Lean `String`
(structurally a `List Char`); the KV store is a function from keys to
optional pre-parsed JSON values; the single wall-clock read
(`Date.now()`, used only when a record lacks a creation date) is an
explicit parameter of the catalog builder.
-/

namespace Worker

/-- JavaScript `s.split(c)` on the character list of a string:
`"" ↦ [""]`, `":" ↦ ["",""]`, etc. -/
def splitOnC (sep : Char) : List Char → List (List Char)
  | [] => [[]]
  | c :: cs =>
    let r := splitOnC sep cs
    if c = sep then [] :: r
    else
      match r with
      | s :: ss => (c :: s) :: ss
      | [] => [[c]]

/-- JavaScript `parts.join(sep)`. -/
def joinC (sep : Char) : List (List Char) → List Char
  | [] => []
  | [s] => s
  | s :: ss => s ++ sep :: joinC sep ss

/-- String-level wrapper for `splitOnC`. -/
def jsSplit (sep : Char) (s : String) : List String :=
  (splitOnC sep s.data).map String.mk

/-- String-level wrapper for `joinC`. -/
def jsJoin (sep : Char) (l : List String) : String :=
  String.mk (joinC sep (l.map String.data))

theorem splitOnC_ne_nil (sep : Char) (l : List Char) : splitOnC sep l ≠ [] := by
  induction l with
  | nil => simp [splitOnC]
  | cons c cs ih =>
    simp only [splitOnC]
    split
    · simp
    · match h : splitOnC sep cs with
      | [] => exact absurd h ih
      | s :: ss => simp

theorem joinC_cons (sep : Char) (s : List Char) (ss : List (List Char)) :
    joinC sep (s :: ss) = if ss = [] then s else s ++ sep :: joinC sep ss := by
  cases ss with
  | nil => simp [joinC]
  | cons t ts => simp [joinC]

theorem joinC_splitOnC (sep : Char) (l : List Char) :
    joinC sep (splitOnC sep l) = l := by
  induction l with
  | nil => simp [splitOnC, joinC]
  | cons c cs ih =>
    by_cases hc : c = sep
    · subst hc
      have hsplit : splitOnC c (c :: cs) = [] :: splitOnC c cs := by
        simp [splitOnC]
      rw [hsplit, joinC_cons, if_neg (splitOnC_ne_nil c cs), ih, List.nil_append]
    · simp only [splitOnC, if_neg hc]
      rcases h : splitOnC sep cs with _ | ⟨s, ss⟩
      · exact absurd h (splitOnC_ne_nil sep cs)
      · rw [h] at ih
        show joinC sep ((c :: s) :: ss) = c :: cs
        rw [joinC_cons] at ih ⊢
        by_cases hss : ss = []
        · rw [if_pos hss] at ih
          rw [if_pos hss, ih]
        · rw [if_neg hss] at ih
          rw [if_neg hss, List.cons_append, ih]

theorem splitOnC_sep_cons (sep : Char) (a rest : List Char) (ha : sep ∉ a) :
    splitOnC sep (a ++ sep :: rest) = a :: splitOnC sep rest := by
  induction a with
  | nil => simp [splitOnC]
  | cons c cs ih =>
    have hc : c ≠ sep := fun h => ha (h ▸ List.mem_cons_self c cs)
    have hcs : sep ∉ cs := fun h => ha (List.mem_cons_of_mem c h)
    rw [List.cons_append]
    simp only [splitOnC, if_neg hc]
    rw [ih hcs]

theorem splitOnC_no_sep (sep : Char) (a : List Char) (ha : sep ∉ a) :
    splitOnC sep a = [a] := by
  induction a with
  | nil => simp [splitOnC]
  | cons c cs ih =>
    have hc : c ≠ sep := fun h => ha (h ▸ List.mem_cons_self c cs)
    have hcs : sep ∉ cs := fun h => ha (List.mem_cons_of_mem c h)
    simp only [splitOnC, if_neg hc]
    rw [ih hcs]

theorem mem_splitOnC_no_sep (sep : Char) (l : List Char) :
    ∀ s ∈ splitOnC sep l, sep ∉ s := by
  induction l with
  | nil => simp [splitOnC]
  | cons c cs ih =>
    by_cases hc : c = sep
    · subst hc
      have hsplit : splitOnC c (c :: cs) = [] :: splitOnC c cs := by
        simp [splitOnC]
      rw [hsplit]
      intro s hs
      rcases List.mem_cons.mp hs with h | h
      · subst h; simp
      · exact ih s h
    · simp only [splitOnC, if_neg hc]
      rcases h : splitOnC sep cs with _ | ⟨s, ss⟩
      · exact absurd h (splitOnC_ne_nil sep cs)
      · show ∀ t ∈ (c :: s) :: ss, sep ∉ t
        intro t ht
        rw [h] at ih
        rcases List.mem_cons.mp ht with h1 | h1
        · subst h1
          intro hmem
          rcases List.mem_cons.mp hmem with h2 | h2
          · exact hc h2.symm
          · exact ih s (List.mem_cons_self s ss) h2
        · exact ih t (List.mem_cons_of_mem s h1)

/-- Fuel-bounded decimal digit expansion (structural recursion keeps it
kernel-reducible; the fuel is always sufficient at `n + 1`). -/
def decReprAux : Nat → Nat → List Char
  | 0, _ => []
  | fuel + 1, n =>
    if n < 10 then [Nat.digitChar n]
    else decReprAux fuel (n / 10) ++ [Nat.digitChar (n % 10)]

/-- Decimal representation of a natural number (JS template of a
nonnegative integer), most significant digit first. -/
def decRepr (n : Nat) : List Char := decReprAux (n + 1) n

theorem decReprAux_congr (f1 : Nat) : ∀ (f2 n : Nat), n < f1 → n < f2 →
    decReprAux f1 n = decReprAux f2 n := by
  induction f1 with
  | zero => intro f2 n h1 _; omega
  | succ f ih =>
    intro f2 n h1 h2
    cases f2 with
    | zero => omega
    | succ g =>
      simp only [decReprAux]
      by_cases h10 : n < 10
      · rw [if_pos h10, if_pos h10]
      · rw [if_neg h10, if_neg h10, ih g (n / 10) (by omega) (by omega)]

theorem decRepr_base (n : Nat) (h : n < 10) : decRepr n = [Nat.digitChar n] := by
  rw [decRepr]
  simp only [decReprAux]
  rw [if_pos h]

theorem decRepr_step (n : Nat) (h : 10 ≤ n) :
    decRepr n = decRepr (n / 10) ++ [Nat.digitChar (n % 10)] := by
  rw [decRepr, decRepr]
  simp only [decReprAux]
  rw [if_neg (by omega)]
  exact congrArg (· ++ [Nat.digitChar (n % 10)])
    (decReprAux_congr n (n / 10 + 1) (n / 10) (by omega) (by omega))

/-- Exactly `k` decimal digits of `n % 10^k`, most significant first;
for `n < 100`, `padDigits 2 n` is JS `String(n).padStart(2, '0')`. -/
def padDigits : Nat → Nat → List Char
  | 0, _ => []
  | k + 1, n => padDigits k (n / 10) ++ [Nat.digitChar (n % 10)]

/-- Day-of-era on which year-of-era `y` starts. -/
def sOfYoe (y : Nat) : Nat := 365 * y + y / 4 - y / 100

/-- The adjusted day count used to recover the year of era. -/
def tOf (doe : Nat) : Nat := doe - doe / 1460 + doe / 36524 - doe / 146096

/-- Year of era recovered from a day of era. -/
def yoeOf (doe : Nat) : Nat := tOf doe / 365

set_option maxRecDepth 40000 in
theorem yearCheck : ∀ y, y < 400 →
    (yoeOf (sOfYoe y) = y ∧ (1 ≤ y → yoeOf (sOfYoe y - 1) = y - 1)) := by decide

theorem tOf_step (d : Nat) : tOf d ≤ tOf (d + 1) := by
  simp only [tOf]
  omega

theorem yoeOf_mono (k d : Nat) : yoeOf d ≤ yoeOf (d + k) := by
  induction k with
  | zero => simp
  | succ k ih =>
    calc yoeOf d ≤ yoeOf (d + k) := ih
    _ ≤ yoeOf (d + k + 1) := Nat.div_le_div_right (tOf_step (d + k))

theorem yoeOf_le_of_le {d1 d2 : Nat} (h : d1 ≤ d2) : yoeOf d1 ≤ yoeOf d2 := by
  have := yoeOf_mono (d2 - d1) d1
  rwa [Nat.add_sub_cancel' h] at this

theorem yoeOf_top : yoeOf 146096 = 399 := by decide

theorem yoeOf_facts (doe : Nat) (h : doe < 146097) :
    yoeOf doe ≤ 399 ∧ sOfYoe (yoeOf doe) ≤ doe ∧ doe - sOfYoe (yoeOf doe) ≤ 365 := by
  have ha : yoeOf doe ≤ 399 := by
    have := yoeOf_le_of_le (show doe ≤ 146096 by omega)
    rwa [yoeOf_top] at this
  have hb : sOfYoe (yoeOf doe) ≤ doe := by
    by_contra hb
    push_neg at hb
    have hy1 : 1 ≤ yoeOf doe := by
      rcases Nat.eq_zero_or_pos (yoeOf doe) with h0 | h0
      · rw [h0] at hb; simp [sOfYoe] at hb
      · exact h0
    have hq : doe ≤ sOfYoe (yoeOf doe) - 1 := by omega
    have := yoeOf_le_of_le hq
    rw [(yearCheck (yoeOf doe) (by omega)).2 hy1] at this
    omega
  refine ⟨ha, hb, ?_⟩
  by_contra hc
  push_neg at hc
  rcases Nat.lt_or_ge (yoeOf doe) 399 with h399 | h399
  · have hstep : sOfYoe (yoeOf doe + 1) ≤ sOfYoe (yoeOf doe) + 366 := by
      simp only [sOfYoe]; omega
    have hge : sOfYoe (yoeOf doe + 1) ≤ doe := by omega
    have := yoeOf_le_of_le hge
    rw [(yearCheck (yoeOf doe + 1) (by omega)).1] at this
    omega
  · have h399e : yoeOf doe = 399 := by omega
    rw [h399e] at hb hc
    simp only [sOfYoe] at hb hc
    omega

/-- Gregorian civil date `(year, month, day)` from a day count since the
Unix epoch (what JS `Date.getUTCFullYear/Month/Date` compute for
nonnegative timestamps); standard era/day-of-era decomposition. -/
def civilFromDays (z : Nat) : Nat × Nat × Nat :=
  let zz := z + 719468
  let era := zz / 146097
  let doe := zz % 146097
  let yoe := (doe - doe / 1460 + doe / 36524 - doe / 146096) / 365
  let y := yoe + era * 400
  let doy := doe - (365 * yoe + yoe / 4 - yoe / 100)
  let mp := (5 * doy + 2) / 153
  let d := doy - (153 * mp + 2) / 5 + 1
  let m := if mp < 10 then mp + 3 else mp - 9
  (if m ≤ 2 then y + 1 else y, m, d)

/-- Inverse of `civilFromDays` (proof tool; not part of the worker). -/
def daysFromCivil (y m d : Nat) : Nat :=
  let y2 := if m ≤ 2 then y - 1 else y
  let era := y2 / 400
  let yoe := y2 % 400
  let mp := if 2 < m then m - 3 else m + 9
  let doy := (153 * mp + 2) / 5 + d - 1
  let doe := yoe * 365 + yoe / 4 - yoe / 100 + doy
  era * 146097 + doe - 719468

/-- Day count of 9999-12-31, the last day with a four-digit year. -/
def maxDay : Nat := 2932896

theorem civil_core (z era doe yoe doy mp : Nat)
    (hz : z ≤ 2932896)
    (hera : era = (z + 719468) / 146097) (hdoe : doe = (z + 719468) % 146097)
    (hyoe399 : yoe ≤ 399)
    (hS : 365 * yoe + yoe / 4 - yoe / 100 ≤ doe)
    (hD : doe - (365 * yoe + yoe / 4 - yoe / 100) ≤ 365)
    (hdoy : doy = doe - (365 * yoe + yoe / 4 - yoe / 100))
    (hmp : mp = (5 * doy + 2) / 153) :
    ∀ m d y, m = (if mp < 10 then mp + 3 else mp - 9) →
    d = doy - (153 * mp + 2) / 5 + 1 →
    y = (if m ≤ 2 then yoe + era * 400 + 1 else yoe + era * 400) →
    1970 ≤ y ∧ y ≤ 9999 ∧ 1 ≤ m ∧ m ≤ 12 ∧ 1 ≤ d ∧ d ≤ 31 ∧ daysFromCivil y m d = z ∧
    (153 * (if 2 < m then m - 3 else m + 9) + 2) / 5 + d - 1 ≤ 365 := by
  intro m d y hm hd hy
  have hera4 : 4 ≤ era := by omega
  have hera24 : era ≤ 24 := by omega
  have hdm : era * 146097 + doe = z + 719468 := by omega
  have hmp11 : mp ≤ 11 := by omega
  have hmp5a : (153 * mp + 2) / 5 ≤ doy := by omega
  have hmp5b : doy - (153 * mp + 2) / 5 ≤ 30 := by omega
  have hlow : era = 4 → 369 ≤ yoe := by omega
  have hlow2 : era = 4 → yoe = 369 → 10 ≤ mp := by omega
  have hhigh2 : era = 24 → yoe = 399 → mp ≤ 9 := by omega
  by_cases h10 : mp < 10
  · rw [if_pos h10] at hm
    have hm2 : ¬ (m ≤ 2) := by omega
    rw [if_neg hm2] at hy
    have hy1970 : 1970 ≤ y := by
      rcases Nat.lt_or_ge era 5 with h5 | h5
      · have he4 : era = 4 := by omega
        have h369 := hlow he4
        rcases Nat.eq_or_lt_of_le h369 with he | hlt
        · exact absurd (hlow2 he4 he.symm) (by omega)
        · omega
      · omega
    have hdoyb : (153 * (if 2 < m then m - 3 else m + 9) + 2) / 5 + d - 1 ≤ 365 := by
      rw [hm, if_pos (show 2 < mp + 3 by omega), Nat.add_sub_cancel]
      omega
    refine ⟨hy1970, by omega, by omega, by omega, by omega, by omega, ?_, hdoyb⟩
    simp only [daysFromCivil]
    rw [if_neg hm2, if_pos (show 2 < m by omega), hy, hm]
    rw [show yoe + era * 400 = yoe + 400 * era by omega]
    rw [Nat.add_mul_div_left _ _ (by norm_num : (0:Nat) < 400)]
    rw [Nat.add_mul_mod_self_left]
    rw [Nat.div_eq_of_lt (by omega), Nat.mod_eq_of_lt (by omega), Nat.zero_add]
    simp only [Nat.add_sub_cancel]
    omega
  · rw [if_neg h10] at hm
    have hm2 : m ≤ 2 := by omega
    rw [if_pos hm2] at hy
    have hy1970 : 1970 ≤ y := by
      rcases Nat.lt_or_ge era 5 with h5 | h5
      · have he4 : era = 4 := by omega
        have h369 := hlow he4
        omega
      · omega
    have hy9999 : y ≤ 9999 := by
      rcases Nat.lt_or_ge era 24 with h24 | h24
      · omega
      · have he24 : era = 24 := by omega
        rcases Nat.eq_or_lt_of_le hyoe399 with he | hlt
        · exact absurd (hhigh2 he24 he) (by omega)
        · omega
    have hdoyb : (153 * (if 2 < m then m - 3 else m + 9) + 2) / 5 + d - 1 ≤ 365 := by
      rw [hm, if_neg (show ¬ 2 < mp - 9 by omega),
        Nat.sub_add_cancel (show 9 ≤ mp by omega)]
      omega
    refine ⟨hy1970, hy9999, by omega, by omega, by omega, by omega, ?_, hdoyb⟩
    simp only [daysFromCivil]
    rw [if_pos hm2, if_neg (show ¬ (2 < m) by omega), hy, hm]
    rw [Nat.add_sub_cancel, Nat.sub_add_cancel (show 9 ≤ mp by omega)]
    rw [show yoe + era * 400 = yoe + 400 * era by omega]
    rw [Nat.add_mul_div_left _ _ (by norm_num : (0:Nat) < 400)]
    rw [Nat.add_mul_mod_self_left]
    rw [Nat.div_eq_of_lt (by omega), Nat.mod_eq_of_lt (by omega), Nat.zero_add]
    omega

theorem civilFromDays_spec (z : Nat) (hz : z ≤ maxDay) :
    1970 ≤ (civilFromDays z).1 ∧ (civilFromDays z).1 ≤ 9999 ∧
    1 ≤ (civilFromDays z).2.1 ∧ (civilFromDays z).2.1 ≤ 12 ∧
    1 ≤ (civilFromDays z).2.2 ∧ (civilFromDays z).2.2 ≤ 31 ∧
    daysFromCivil (civilFromDays z).1 (civilFromDays z).2.1 (civilFromDays z).2.2 = z ∧
    (153 * (if 2 < (civilFromDays z).2.1 then (civilFromDays z).2.1 - 3
      else (civilFromDays z).2.1 + 9) + 2) / 5 + (civilFromDays z).2.2 - 1 ≤ 365 := by
  rw [maxDay] at hz
  obtain ⟨h1, h2, h3⟩ := yoeOf_facts ((z + 719468) % 146097) (Nat.mod_lt _ (by norm_num))
  simp only [yoeOf, tOf, sOfYoe] at h1 h2 h3
  simp only [civilFromDays]
  exact civil_core z ((z + 719468) / 146097) ((z + 719468) % 146097)
    (((z + 719468) % 146097 - (z + 719468) % 146097 / 1460 + (z + 719468) % 146097 / 36524 -
      (z + 719468) % 146097 / 146096) / 365) _ _ hz rfl rfl h1 h2 h3 rfl rfl _ _ _ rfl rfl rfl

/-! ### Data model: KV store contents -/

/-- A per-product metadata record as stored (JSON) in KV.  Every field is
optional, mirroring dynamic JS property access (`undefined` when absent).
`filenamePref` models the JS property named `filename` + `_` + `pref` + `ix`
(an identifier restriction forces the shorter Lean name). -/
structure Metadata where
  creation_date : Option Nat := none
  meta_hash : Option String := none
  meta_size : Option Nat := none
  disk_hash : Option String := none
  disk_size : Option Nat := none
  combined_hash : Option String := none
  github_repo : Option String := none
  filenamePref : Option String := none
  talos_factory_url : Option String := none
  talos_schematic_id : Option String := none
deriving DecidableEq

/-- Outcome of `JSON.parse` on a stored KV value: a parse failure, a JSON
array of strings (the products list), or an object (a metadata record).
A parsable non-object value at a product key behaves in JS like an object
with all fields missing, which the all-`none` record represents. -/
inductive KVValue where
  | malformed : KVValue
  | jlist : List String → KVValue
  | jrecord : Metadata → KVValue
deriving DecidableEq

/-- The KV namespace `env.IMAGE_HASHES` as a function from keys to values
(`none` = key absent). -/
def Store := String → Option KVValue

/-- The `try JSON.parse` step on a metadata value: `malformed` throws,
anything else parses (property access on a non-object yields `undefined`,
i.e. the all-`none` record). -/
def parseRecord : KVValue → Option Metadata
  | KVValue.malformed => none
  | KVValue.jlist _ => some {}
  | KVValue.jrecord m => some m

/-- An HTTP response as constructed by the worker (status text omitted;
the body of a streamed proxy response is carried as a string). -/
structure HttpResponse where
  status : Nat
  body : String
  headers : List (String × String)
deriving DecidableEq

/-- `getAllProducts`: read and parse the distinguished `products:list` key;
absent or unparsable yields `[]`.  (A parsable non-array value at this key
would make the JS callers throw; that case is outside the modelled states.) -/
def getAllProducts (store : Store) : List String :=
  match store "products:list" with
  | some (KVValue.jlist l) => l
  | _ => []

/-! ### Path/key codec -/

/-- JS `os.charAt(0).toUpperCase() + os.slice(1)`. -/
def capitalize (s : String) : String :=
  match s.data with
  | [] => ""
  | c :: cs => String.mk (c.toUpper :: cs)

/-- The simplestreams version key `YYYYMMDD_HH:MM` derived from a creation
timestamp in seconds (UTC).  `padDigits 2` agrees with JS
`String(n).padStart(2, '0')` for the always-two-digit fields. -/
def versionKey (creationDate : Nat) : String :=
  let ymd := civilFromDays (creationDate / 86400)
  let hours := creationDate / 3600 % 24
  let minutes := creationDate / 60 % 60
  String.mk (decRepr ymd.1 ++ padDigits 2 ymd.2.1 ++ padDigits 2 ymd.2.2 ++
    '_' :: (padDigits 2 hours ++ ':' :: padDigits 2 minutes))

/-- The canonical protocol-relative download path, as embedded in the
catalog `path` fields. -/
def downloadPath (os version arch variant vk filename : String) : String :=
  "images/" ++ os ++ "/" ++ version ++ "/" ++ arch ++ "/" ++ variant ++ "/" ++
    vk ++ "/" ++ filename

/-- The per-entry conversion inside `handleIndex`: strip the `product:`
namespace from a 5-segment registry key, else signal drop (`none`, JS `null`). -/
def registryKeyToWireKey (kvKey : String) : Option String :=
  match jsSplit ':' kvKey with
  | [p0, a, b, c, d] =>
    if p0 = "product" then some (jsJoin ':' [a, b, c, d]) else none
  | _ => none

/-- JS `archMap[arch.toLowerCase()] || arch` (plain map semantics; the JS
prototype chain is not modelled). -/
def normalizeArch (arch : String) : String :=
  let lower := String.mk (arch.data.map Char.toLower)
  if lower = "aarch64" ∨ lower = "arm64" then "arm64"
  else if lower = "x86_64" ∨ lower = "x64" ∨ lower = "amd64" then "amd64"
  else arch

/-! ### Catalog builder -/

/-- One file entry of a version; `combined` is serialized under the JSON
key `combined_disk-kvm-img_sha256`. -/
structure ImageItem where
  ftype : String
  sha256 : Option String
  size : Option Nat
  path : String
  combined : Option String
deriving DecidableEq

/-- A `versions` map entry. -/
structure SSVersion where
  items : List (String × ImageItem)
deriving DecidableEq

/-- One simplestreams product; `osName` is serialized under the JSON key
`os`; `requirements` is always the empty object.  Association lists keep
JS object insertion order. -/
structure SSProduct where
  aliases : String
  arch : String
  osName : String
  release : String
  release_title : String
  variant : String
  versions : List (String × SSVersion)
deriving DecidableEq

/-- The images.json document. -/
structure ImagesDoc where
  format : String
  content_id : String
  datatype : String
  products : List (String × SSProduct)
deriving DecidableEq

/-- JS object property read. -/
def alistGet {α : Type} (k : String) : List (String × α) → Option α
  | [] => none
  | (k2, v) :: rest => if k2 = k then some v else alistGet k rest

/-- JS object property write: overwrite in place, else append (JS object
key-order semantics). -/
def alistSet {α : Type} (k : String) (v : α) : List (String × α) → List (String × α)
  | [] => [(k, v)]
  | (k2, v2) :: rest => if k2 = k then (k, v) :: rest else (k2, v2) :: alistSet k v rest

/-- The body of the `for (const kvProductKey of products)` loop in
`getAllImageMetadata`.  `now` is the value of
`Math.floor(Date.now() / 1000)`, used only when `metadata.creation_date`
is falsy (absent or the number 0). -/
def processProduct (now : Nat) (store : Store) (images : List (String × SSProduct))
    (kvProductKey : String) : List (String × SSProduct) :=
  match jsSplit ':' kvProductKey with
  | [p0, os, version, arch, variant] =>
    if p0 = "product" then
      match store kvProductKey with
      | none => images
      | some v =>
        match parseRecord v with
        | none => images
        | some metadata =>
          let simplestreamsKey := os ++ ":" ++ version ++ ":" ++ arch ++ ":" ++ variant
          let base : SSProduct :=
            match alistGet simplestreamsKey images with
            | some p => p
            | none =>
              { aliases := os ++ "/" ++ version ++ "/" ++ arch ++ "/" ++ variant ++ "," ++
                  os ++ "/" ++ version ++ "/" ++ arch ++ "," ++ os ++ "/" ++ version
                arch := arch
                osName := capitalize os
                release := version
                release_title := version
                variant := variant
                versions := [] }
          let creationDate :=
            match metadata.creation_date with
            | some n => if n = 0 then now else n
            | none => now
          let vk := versionKey creationDate
          let metaPath := downloadPath os version arch variant vk "incus.tar.xz"
          let diskPath := downloadPath os version arch variant vk "disk.qcow2"
          let ver : SSVersion :=
            { items :=
                [("incus.tar.xz",
                  { ftype := "incus.tar.xz", sha256 := metadata.meta_hash,
                    size := metadata.meta_size, path := metaPath,
                    combined := metadata.combined_hash }),
                 ("disk.qcow2",
                  { ftype := "disk-kvm.img", sha256 := metadata.disk_hash,
                    size := metadata.disk_size, path := diskPath,
                    combined := none }),
                 ("lxd.tar.xz",
                  { ftype := "lxd.tar.xz", sha256 := metadata.meta_hash,
                    size := metadata.meta_size, path := metaPath,
                    combined := metadata.combined_hash })] }
          alistSet simplestreamsKey
            { base with versions := alistSet vk ver base.versions } images
    else images
  | _ => images

/-- `getAllImageMetadata`: fold the loop body over the products list. -/
def getAllImageMetadata (store : Store) (now : Nat) : ImagesDoc :=
  { format := "products:1.0"
    content_id := "images"
    datatype := "image-downloads"
    products := (getAllProducts store).foldl (processProduct now store) [] }

/-! ### Compact JSON serialization (`JSON.stringify`).  String escaping is
not modelled: every emitted value (hash, name, path, version key) is free
of characters JSON would escape. -/

def jstr (s : String) : String := "\"" ++ s ++ "\""

def jnum (n : Nat) : String := String.mk (decRepr n)

def joinComma : List String → String
  | [] => ""
  | [s] => s
  | s :: ss => s ++ "," ++ joinComma ss

def jobj (fields : List String) : String := "\x7b" ++ joinComma fields ++ "\x7d"

def jarr (elems : List String) : String := "[" ++ joinComma elems ++ "]"

/-- An optional string member: `JSON.stringify` omits `undefined` values. -/
def jfieldS (k : String) (v : Option String) : List String :=
  match v with
  | none => []
  | some s => [jstr k ++ ":" ++ jstr s]

/-- An optional numeric member. -/
def jfieldN (k : String) (v : Option Nat) : List String :=
  match v with
  | none => []
  | some n => [jstr k ++ ":" ++ jnum n]

def itemJson (it : ImageItem) : String :=
  jobj ([jstr "ftype" ++ ":" ++ jstr it.ftype] ++
    jfieldS "sha256" it.sha256 ++ jfieldN "size" it.size ++
    [jstr "path" ++ ":" ++ jstr it.path] ++
    jfieldS "combined_disk-kvm-img_sha256" it.combined)

def versionJson (v : SSVersion) : String :=
  jobj [jstr "items" ++ ":" ++
    jobj (v.items.map (fun kv => jstr kv.1 ++ ":" ++ itemJson kv.2))]

def productJson (p : SSProduct) : String :=
  jobj [jstr "aliases" ++ ":" ++ jstr p.aliases,
    jstr "arch" ++ ":" ++ jstr p.arch,
    jstr "os" ++ ":" ++ jstr p.osName,
    jstr "release" ++ ":" ++ jstr p.release,
    jstr "release_title" ++ ":" ++ jstr p.release_title,
    jstr "requirements" ++ ":" ++ jobj [],
    jstr "variant" ++ ":" ++ jstr p.variant,
    jstr "versions" ++ ":" ++
      jobj (p.versions.map (fun kv => jstr kv.1 ++ ":" ++ versionJson kv.2))]

def imagesJson (doc : ImagesDoc) : String :=
  jobj [jstr "format" ++ ":" ++ jstr doc.format,
    jstr "content_id" ++ ":" ++ jstr doc.content_id,
    jstr "datatype" ++ ":" ++ jstr doc.datatype,
    jstr "products" ++ ":" ++
      jobj (doc.products.map (fun kv => jstr kv.1 ++ ":" ++ productJson kv.2))]

/-- `handleImages`: the images catalog endpoint. -/
def handleImages (store : Store) (now : Nat) : HttpResponse :=
  { status := 200
    body := imagesJson (getAllImageMetadata store now)
    headers := [("Content-Type", "application/json"),
      ("Access-Control-Allow-Origin", "*")] }

/-- The `simplestreamsProducts` list of `handleIndex`
(`map` then `filter(Boolean)`; the only falsy map outputs are the `null`s,
since a produced wire key always contains `:` and is nonempty). -/
def handleIndexProducts (store : Store) : List String :=
  ((getAllProducts store).map registryKeyToWireKey).filterMap id

def indexJson (products : List String) : String :=
  jobj [jstr "index" ++ ":" ++ jobj [jstr "images" ++ ":" ++ jobj
      [jstr "datatype" ++ ":" ++ jstr "image-downloads",
       jstr "path" ++ ":" ++ jstr "streams/v1/images.json",
       jstr "format" ++ ":" ++ jstr "products:1.0",
       jstr "products" ++ ":" ++ jarr (products.map jstr)]],
    jstr "format" ++ ":" ++ jstr "index:1.0"]

/-- `handleIndex`: the index catalog endpoint. -/
def handleIndex (store : Store) : HttpResponse :=
  { status := 200
    body := indexJson (handleIndexProducts store)
    headers := [("Content-Type", "application/json"),
      ("Access-Control-Allow-Origin", "*")] }

/-! ### Download proxy -/

/-- Worker environment: the KV binding plus the optional `GITHUB_ORG`
environment variable. -/
structure Env where
  store : Store
  githubOrgEnv : Option String := none

/-- The parts of the request URL the handler reads. -/
structure Request where
  protocol : String
  host : String
  pathname : String

/-- `CONFIG.GITHUB_ORG`. -/
def CONFIG_GITHUB_ORG : String := "windsorcli"

/-- The fixed default schematic id for vanilla Talos. -/
def defaultSchematicId : String :=
  "376567988ad370138ad8b2698212367b8edcb69b5fd68c80be1f2ec7d603b4ba"

/-- JS `v || dflt` for an optional string (`undefined` and `""` are falsy). -/
def jsOr (v : Option String) (dflt : String) : String :=
  match v with
  | some s => if s = "" then dflt else s
  | none => dflt

/-- JS string interpolation of a possibly-`undefined` value. -/
def jsUndef (v : Option String) : String :=
  match v with
  | some s => s
  | none => "undefined"

/-- A JS regular-expression line terminator: `.` without the `s` flag
matches any character except these four. -/
def isLineTerm (c : Char) : Bool :=
  c = '\n' || c = '\r' || c = ' ' || c = ' '

/-- The download path matcher
`^\/images\/([^\/]+)\/([^\/]+)\/([^\/]+)\/([^\/]+)\/([^\/]+)\/(.+)$`:
a literal `/images/` followed by five nonempty slash-free segments and a
nonempty remainder (which may itself contain slashes, but — since `.`
cannot match a line terminator — no newline, carriage return, U+2028
or U+2029; the negated classes `[^\/]+` of the first five segments have
no such restriction). -/
def parseImagePath (p : String) :
    Option (String × String × String × String × String × String) :=
  if p.data.take 8 = ("/images/").data then
    match splitOnC '/' (p.data.drop 8) with
    | s1 :: s2 :: s3 :: s4 :: s5 :: rest =>
      if s1 ≠ [] ∧ s2 ≠ [] ∧ s3 ≠ [] ∧ s4 ≠ [] ∧ s5 ≠ [] ∧
          rest ≠ [] ∧ joinC '/' rest ≠ [] ∧
          (joinC '/' rest).all (fun c => !(isLineTerm c)) = true then
        some (String.mk s1, String.mk s2, String.mk s3, String.mk s4,
          String.mk s5, String.mk (joinC '/' rest))
      else none
    | _ => none
  else none

/-- The state of `handleImageDownload` just before `await fetch`: either a
terminal response produced without contacting any upstream, or a resolved
fetch plan `(sourceUrl, hash, proxyUrl)` (the hash is the registry-stored
value chosen before the fetch). -/
inductive PreFetch where
  | respond : HttpResponse → PreFetch
  | fetch : String → Option String → String → PreFetch
deriving DecidableEq

/-- Everything `handleImageDownload` does before the upstream fetch:
parse the path, normalize the architecture, look up and parse the registry
record, classify the filename and resolve the upstream source. -/
def resolveDownload (env : Env) (req : Request) : PreFetch :=
  match parseImagePath req.pathname with
  | none => PreFetch.respond
      { status := 400
        body := "Invalid path format. Expected: /images/\x7bproduct\x7d/\x7bversion\x7d/\x7barch\x7d/\x7bvariant\x7d/\x7bversionKey\x7d/\x7bfilename\x7d"
        headers := [("Content-Type", "text/plain")] }
  | some (product, version, arch, variant, _vk, filename) =>
    let normalizedArch := normalizeArch arch
    let productKey :=
      "product:" ++ product ++ ":" ++ version ++ ":" ++ normalizedArch ++ ":" ++ variant
    match env.store productKey with
    | none => PreFetch.respond
        { status := 404
          body := "Product not found for " ++ product ++ "/" ++ version ++ "/" ++
            normalizedArch ++ "/" ++ variant ++ ". Image may not be available yet."
          headers := [("Content-Type", "text/plain")] }
    | some v =>
      match parseRecord v with
      | none => PreFetch.respond
          { status := 500
            body := "Invalid metadata format for " ++ productKey
            headers := [("Content-Type", "text/plain")] }
      | some metadata =>
        let proxyUrl := req.protocol ++ "//" ++ req.host ++ req.pathname
        if filename = "incus.tar.xz" ∨ filename = "lxd.tar.xz" then
          let githubOrg := jsOr env.githubOrgEnv CONFIG_GITHUB_ORG
          let githubRepo := jsOr metadata.github_repo product
          let fnPref := jsOr metadata.filenamePref product
          let githubFilename := fnPref ++ "-" ++ normalizedArch ++ "-incus.tar.xz"
          PreFetch.fetch
            ("https://github.com/" ++ githubOrg ++ "/" ++ githubRepo ++
              "/releases/download/" ++ version ++ "/" ++ githubFilename)
            metadata.meta_hash proxyUrl
        else if filename = "disk.qcow2" ∨ filename = "disk-kvm.img" then
          let sourceUrl :=
            match metadata.talos_factory_url with
            | some u =>
              if u = "" then
                let schematicId := jsOr metadata.talos_schematic_id defaultSchematicId
                let factoryVersion :=
                  match version.data with
                  | 'v' :: _ => version
                  | _ => "v" ++ version
                "https://factory.talos.dev/image/" ++ schematicId ++ "/" ++
                  factoryVersion ++ "/metal-" ++ normalizedArch ++ ".qcow2"
              else u
            | none =>
              let schematicId := jsOr metadata.talos_schematic_id defaultSchematicId
              let factoryVersion :=
                match version.data with
                | 'v' :: _ => version
                | _ => "v" ++ version
              "https://factory.talos.dev/image/" ++ schematicId ++ "/" ++
                factoryVersion ++ "/metal-" ++ normalizedArch ++ ".qcow2"
          PreFetch.fetch sourceUrl metadata.disk_hash proxyUrl
        else
          PreFetch.respond
            { status := 400
              body := "Unknown file: " ++ filename ++
                ". Expected incus.tar.xz, lxd.tar.xz, or disk.qcow2"
              headers := [("Content-Type", "text/plain")] }

/-- What `await fetch(sourceUrl)` produced. -/
structure FetchResponse where
  status : Nat
  body : String
  headers : List (String × String)
deriving DecidableEq

/-- A resolved fetch, or a thrown network error with its message. -/
inductive FetchResult where
  | success : FetchResponse → FetchResult
  | failure : String → FetchResult
deriving DecidableEq

/-- `response.ok`: status in the range 200–299. -/
def responseOk (r : FetchResponse) : Bool :=
  decide (200 ≤ r.status) && decide (r.status ≤ 299)

/-- The message of the `RangeError` thrown by the `Response` constructor
for a status outside 200–599 (the Fetch standard mandates the throw; this
text is the workers runtime's). -/
def rangeErrorMsg : String :=
  "Responses may only be constructed with status codes in the range 200 to 599, inclusive."

/-- The tail of `handleImageDownload` after the fetch plan is known: the
`try { fetch ... }` block.  On a non-ok upstream status in 200–599 the
status is passed through with a short diagnostic; an upstream status
outside that range (the Fetch standard allows up to 999) makes
`new Response(_, \x7b status \x7d)` throw a `RangeError`, which the
surrounding `catch` turns into a 500 `Error: ...` response; on success the
upstream headers are copied and the two Incus headers plus CORS are set
(an ok status 200–299 is always constructible). -/
def finishDownload (pre : PreFetch) (result : FetchResult) : HttpResponse :=
  match pre with
  | PreFetch.respond r => r
  | PreFetch.fetch _ hash proxyUrl =>
    match result with
    | FetchResult.failure msg =>
      { status := 500
        body := "Error: " ++ msg
        headers := [("Content-Type", "text/plain")] }
    | FetchResult.success resp =>
      if responseOk resp then
        { status := resp.status
          body := resp.body
          headers :=
            alistSet "Access-Control-Allow-Origin" "*"
              (alistSet "Incus-Image-URL" proxyUrl
                (alistSet "Incus-Image-Hash" (jsUndef hash) resp.headers)) }
      else
        if 200 ≤ resp.status ∧ resp.status ≤ 599 then
          { status := resp.status
            body := "Upstream error: " ++ jnum resp.status
            headers := [("Content-Type", "text/plain")] }
        else
          { status := 500
            body := "Error: " ++ rangeErrorMsg
            headers := [("Content-Type", "text/plain")] }

/-! ### String bridging lemmas -/

theorem dataAppend (a b : String) : (a ++ b).data = a.data ++ b.data := rfl

theorem mkData (s : String) : String.mk s.data = s := rfl

theorem dataNeNil (s : String) (h : s ≠ "") : s.data ≠ [] := by
  intro hd
  apply h
  cases s with
  | mk d => cases hd; rfl

/-- Joining four segments with `:` is plain concatenation. -/
theorem jsJoin4 (a b c d : String) :
    jsJoin ':' [a, b, c, d] = a ++ ":" ++ b ++ ":" ++ c ++ ":" ++ d := by
  show String.mk (joinC ':' [a.data, b.data, c.data, d.data]) = _
  have : joinC ':' [a.data, b.data, c.data, d.data] =
      a.data ++ ':' :: (b.data ++ ':' :: (c.data ++ ':' :: d.data)) := by
    simp [joinC]
  rw [this]
  have h2 : a.data ++ ':' :: (b.data ++ ':' :: (c.data ++ ':' :: d.data)) =
      (a ++ ":" ++ b ++ ":" ++ c ++ ":" ++ d).data := by
    simp [dataAppend]
  rw [h2]

/-- Splitting a five-segment colon join recovers the segments. -/
theorem splitColon5 (p a b c d : String)
    (hp : ':' ∉ p.data) (ha : ':' ∉ a.data) (hb : ':' ∉ b.data)
    (hc : ':' ∉ c.data) (hd : ':' ∉ d.data) :
    jsSplit ':' (p ++ ":" ++ a ++ ":" ++ b ++ ":" ++ c ++ ":" ++ d) = [p, a, b, c, d] := by
  show ((splitOnC ':' (p ++ ":" ++ a ++ ":" ++ b ++ ":" ++ c ++ ":" ++ d).data).map String.mk) = _
  have hdata : (p ++ ":" ++ a ++ ":" ++ b ++ ":" ++ c ++ ":" ++ d).data =
      p.data ++ ':' :: (a.data ++ ':' :: (b.data ++ ':' :: (c.data ++ ':' :: d.data))) := by
    simp [dataAppend]
  rw [hdata, splitOnC_sep_cons _ _ _ hp, splitOnC_sep_cons _ _ _ ha,
    splitOnC_sep_cons _ _ _ hb, splitOnC_sep_cons _ _ _ hc, splitOnC_no_sep _ _ hd]
  simp [mkData]

/-- C5 (part of the claim theorem): the wire-key conversion on a well-formed
five-segment key strips exactly the namespace segment. -/
theorem registryKeyToWireKey_valid (a b c d : String)
    (ha : ':' ∉ a.data) (hb : ':' ∉ b.data) (hc : ':' ∉ c.data) (hd : ':' ∉ d.data) :
    registryKeyToWireKey ("product" ++ ":" ++ a ++ ":" ++ b ++ ":" ++ c ++ ":" ++ d) =
      some (a ++ ":" ++ b ++ ":" ++ c ++ ":" ++ d) := by
  rw [registryKeyToWireKey,
    splitColon5 "product" a b c d (by decide) ha hb hc hd]
  simp [jsJoin4]

/-- C5: for every five-segment key with first segment `product` (encoded as
the colon join of the namespace literal and four colon-free segments) the
conversion removes exactly the first segment; for every key whose
colon-split does not have five segments headed by `product`, it signals
drop (`none`). -/
theorem registryKeyToWireKey_spec :
    (∀ a b c d : String, ':' ∉ a.data → ':' ∉ b.data → ':' ∉ c.data → ':' ∉ d.data →
      registryKeyToWireKey ("product" ++ ":" ++ a ++ ":" ++ b ++ ":" ++ c ++ ":" ++ d) =
        some (a ++ ":" ++ b ++ ":" ++ c ++ ":" ++ d)) ∧
    (∀ k : String, ¬ ((jsSplit ':' k).length = 5 ∧ (jsSplit ':' k).head? = some "product") →
      registryKeyToWireKey k = none) := by
  constructor
  · intro a b c d ha hb hc hd
    exact registryKeyToWireKey_valid a b c d ha hb hc hd
  · intro k hk
    rw [registryKeyToWireKey]
    rcases hsplit : jsSplit ':' k with _ | ⟨p0, rest⟩
    · rfl
    · rcases rest with _ | ⟨a, rest⟩
      · rfl
      · rcases rest with _ | ⟨b, rest⟩
        · rfl
        · rcases rest with _ | ⟨c, rest⟩
          · rfl
          · rcases rest with _ | ⟨d, rest⟩
            · rfl
            · rcases rest with _ | ⟨e, rest⟩
              · show (if p0 = "product" then some (jsJoin ':' [a, b, c, d]) else none) = none
                rw [if_neg]
                intro hp
                exact hk (by rw [hsplit, hp]; exact ⟨rfl, rfl⟩)
              · rfl

/-- Witness for `registryKeyToWireKey_spec` at concrete keys. -/
theorem registryKeyToWireKey_spec_witness :
    registryKeyToWireKey ("product" ++ ":" ++ "talos" ++ ":" ++ "v1.12.0" ++ ":" ++
        "amd64" ++ ":" ++ "default") =
      some ("talos" ++ ":" ++ "v1.12.0" ++ ":" ++ "amd64" ++ ":" ++ "default") ∧
    registryKeyToWireKey "talos:v1.12.0:amd64:default" = none :=
  ⟨registryKeyToWireKey_spec.1 "talos" "v1.12.0" "amd64" "default"
      (by decide) (by decide) (by decide) (by decide),
    registryKeyToWireKey_spec.2 "talos:v1.12.0:amd64:default" (by decide)⟩

/-- C1 counterexample: the catalog-relative path does not match the proxy
matcher at all (the matcher requires a leading slash); with the slash added
the round trip still fails when a coordinate is empty, and also when the
filename contains a line terminator, which the final `.+` cannot match. -/
theorem downloadPath_roundtrip_cex :
    parseImagePath (downloadPath "talos" "v1.12.0" "amd64" "default"
        "20251226_02:40" "incus.tar.xz") = none ∧
    parseImagePath ("/" ++ downloadPath "" "v1" "amd64" "default" "k" "f") = none ∧
    parseImagePath ("/" ++ downloadPath "talos" "v1" "amd64" "default" "k" "a\nb") =
      none := by
  refine ⟨?_, ?_, ?_⟩
  · decide
  · decide
  · decide

/-- C1 (amended): for nonempty slash-free coordinates and a nonempty
filename free of line terminators, parsing the absolute form of the
canonical download path recovers exactly the five coordinates plus the
filename. -/
theorem downloadPath_roundtrip (os version arch variant vk filename : String)
    (hos : os ≠ "") (hos2 : '/' ∉ os.data)
    (hver : version ≠ "") (hver2 : '/' ∉ version.data)
    (harch : arch ≠ "") (harch2 : '/' ∉ arch.data)
    (hvar : variant ≠ "") (hvar2 : '/' ∉ variant.data)
    (hvk : vk ≠ "") (hvk2 : '/' ∉ vk.data)
    (hf : filename ≠ "")
    (hterm : filename.data.all (fun c => !(isLineTerm c)) = true) :
    parseImagePath ("/" ++ downloadPath os version arch variant vk filename) =
      some (os, version, arch, variant, vk, filename) := by
  have hdata : ("/" ++ downloadPath os version arch variant vk filename).data =
      ("/images/").data ++ (os.data ++ '/' :: (version.data ++ '/' :: (arch.data ++ '/' ::
        (variant.data ++ '/' :: (vk.data ++ '/' :: filename.data))))) := by
    rw [downloadPath]
    simp [dataAppend]
  have h1 : os.data ≠ [] := dataNeNil os hos
  have h2 : version.data ≠ [] := dataNeNil version hver
  have h3 : arch.data ≠ [] := dataNeNil arch harch
  have h4 : variant.data ≠ [] := dataNeNil variant hvar
  have h5 : vk.data ≠ [] := dataNeNil vk hvk
  have h6 : splitOnC '/' filename.data ≠ [] := splitOnC_ne_nil '/' filename.data
  have h7 : joinC '/' (splitOnC '/' filename.data) ≠ [] := by
    rw [joinC_splitOnC]
    exact dataNeNil filename hf
  have h8 : (joinC '/' (splitOnC '/' filename.data)).all
      (fun c => !(isLineTerm c)) = true := by
    rw [joinC_splitOnC]
    exact hterm
  have hsplit : splitOnC '/' (os.data ++ '/' :: (version.data ++ '/' :: (arch.data ++ '/' ::
      (variant.data ++ '/' :: (vk.data ++ '/' :: filename.data))))) =
      os.data :: version.data :: arch.data :: variant.data :: vk.data ::
        splitOnC '/' filename.data := by
    rw [splitOnC_sep_cons _ _ _ hos2, splitOnC_sep_cons _ _ _ hver2,
      splitOnC_sep_cons _ _ _ harch2, splitOnC_sep_cons _ _ _ hvar2,
      splitOnC_sep_cons _ _ _ hvk2]
  rw [parseImagePath, hdata,
    List.take_left' (show ("/images/").data.length = 8 from by decide),
    List.drop_left' (show ("/images/").data.length = 8 from by decide), if_pos rfl, hsplit]
  show (if os.data ≠ [] ∧ version.data ≠ [] ∧ arch.data ≠ [] ∧ variant.data ≠ [] ∧
      vk.data ≠ [] ∧ splitOnC '/' filename.data ≠ [] ∧
      joinC '/' (splitOnC '/' filename.data) ≠ [] ∧
      (joinC '/' (splitOnC '/' filename.data)).all
        (fun c => !(isLineTerm c)) = true then
      some (String.mk os.data, String.mk version.data, String.mk arch.data,
        String.mk variant.data, String.mk vk.data,
        String.mk (joinC '/' (splitOnC '/' filename.data)))
    else none) = some (os, version, arch, variant, vk, filename)
  rw [if_pos ⟨h1, h2, h3, h4, h5, h6, h7, h8⟩, joinC_splitOnC]

/-- Witness for `downloadPath_roundtrip` at a concrete product key. -/
theorem downloadPath_roundtrip_witness :
    parseImagePath ("/" ++ downloadPath "talos" "v1.12.0" "amd64" "default"
        "20251226_02:40" "incus.tar.xz") =
      some ("talos", "v1.12.0", "amd64", "default", "20251226_02:40", "incus.tar.xz") :=
  downloadPath_roundtrip "talos" "v1.12.0" "amd64" "default" "20251226_02:40" "incus.tar.xz"
    (by decide) (by decide) (by decide) (by decide) (by decide) (by decide)
    (by decide) (by decide) (by decide) (by decide) (by decide) (by decide)

/-- C3: a download request for a recognized metadata filename whose
coordinates resolve to no registry record gets HTTP 404 naming the
coordinates, and the handler terminates before any fetch plan is formed
(the final response is the same whatever any fetch would have returned). -/
theorem download_notFound (env : Env) (req : Request)
    (product version arch variant vk filename : String)
    (hparse : parseImagePath req.pathname = some (product, version, arch, variant, vk, filename))
    (hfile : filename = "incus.tar.xz" ∨ filename = "lxd.tar.xz")
    (habsent : env.store ("product:" ++ product ++ ":" ++ version ++ ":" ++
      normalizeArch arch ++ ":" ++ variant) = none) :
    resolveDownload env req = PreFetch.respond
      { status := 404
        body := "Product not found for " ++ product ++ "/" ++ version ++ "/" ++
          normalizeArch arch ++ "/" ++ variant ++ ". Image may not be available yet."
        headers := [("Content-Type", "text/plain")] } ∧
    ∀ fr : FetchResult, finishDownload (resolveDownload env req) fr =
      { status := 404
        body := "Product not found for " ++ product ++ "/" ++ version ++ "/" ++
          normalizeArch arch ++ "/" ++ variant ++ ". Image may not be available yet."
        headers := [("Content-Type", "text/plain")] } := by
  have hres : resolveDownload env req = PreFetch.respond
      { status := 404
        body := "Product not found for " ++ product ++ "/" ++ version ++ "/" ++
          normalizeArch arch ++ "/" ++ variant ++ ". Image may not be available yet."
        headers := [("Content-Type", "text/plain")] } := by
    simp only [resolveDownload, hparse, habsent]
  exact ⟨hres, fun fr => by rw [hres]; rfl⟩

/-- Witness for `download_notFound` on a store with no records. -/
theorem download_notFound_witness :
    resolveDownload { store := fun _ => none }
        { protocol := "https:", host := "h", pathname := "/images/a/b/c/d/e/incus.tar.xz" } =
      PreFetch.respond
        { status := 404
          body := "Product not found for " ++ "a" ++ "/" ++ "b" ++ "/" ++
            normalizeArch "c" ++ "/" ++ "d" ++ ". Image may not be available yet."
          headers := [("Content-Type", "text/plain")] } :=
  (download_notFound { store := fun _ => none }
    { protocol := "https:", host := "h", pathname := "/images/a/b/c/d/e/incus.tar.xz" }
    "a" "b" "c" "d" "e" "incus.tar.xz" (by decide) (Or.inl rfl) rfl).1

/-- C8: a download request for a recognized disk filename whose parsed
registry record has no explicit factory URL synthesizes the default origin
URL from the (record-supplied or default) schematic id and the version with
a leading `v` enforced; the fetch plan carries the registry disk hash. -/
theorem download_disk_default_url (env : Env) (req : Request)
    (product version arch variant vk filename : String) (metadata : Metadata)
    (hparse : parseImagePath req.pathname = some (product, version, arch, variant, vk, filename))
    (hfile : filename = "disk.qcow2" ∨ filename = "disk-kvm.img")
    (hrec : env.store ("product:" ++ product ++ ":" ++ version ++ ":" ++
      normalizeArch arch ++ ":" ++ variant) = some (KVValue.jrecord metadata))
    (hnourl : metadata.talos_factory_url = none) :
    resolveDownload env req = PreFetch.fetch
      ("https://factory.talos.dev/image/" ++
        jsOr metadata.talos_schematic_id defaultSchematicId ++ "/" ++
        (match version.data with | 'v' :: _ => version | _ => "v" ++ version) ++
        "/metal-" ++ normalizeArch arch ++ ".qcow2")
      metadata.disk_hash
      (req.protocol ++ "//" ++ req.host ++ req.pathname) := by
  have hne : ¬ (filename = "incus.tar.xz" ∨ filename = "lxd.tar.xz") := by
    rcases hfile with h | h <;> subst h <;> decide
  simp only [resolveDownload, hparse, hrec, parseRecord]
  rw [if_neg hne, if_pos hfile, hnourl]

/-- Witness for `download_disk_default_url`: version without a leading `v`. -/
theorem download_disk_default_url_witness :
    resolveDownload
        { store := fun k =>
            if k = "product:talos:1.12.0:amd64:default" then
              some (KVValue.jrecord { disk_hash := some "bbb" })
            else none }
        { protocol := "https:", host := "h",
          pathname := "/images/talos/1.12.0/amd64/default/k/disk.qcow2" } =
      PreFetch.fetch
        ("https://factory.talos.dev/image/" ++
          jsOr (Metadata.talos_schematic_id { disk_hash := some "bbb" }) defaultSchematicId ++
          "/" ++
          (match ("1.12.0").data with | 'v' :: _ => ("1.12.0" : String) | _ => "v" ++ "1.12.0") ++
          "/metal-" ++ normalizeArch "amd64" ++ ".qcow2")
        (Metadata.disk_hash { disk_hash := some "bbb" })
        ("https:" ++ "//" ++ "h" ++ "/images/talos/1.12.0/amd64/default/k/disk.qcow2") :=
  download_disk_default_url
    { store := fun k =>
        if k = "product:talos:1.12.0:amd64:default" then
          some (KVValue.jrecord { disk_hash := some "bbb" })
        else none }
    { protocol := "https:", host := "h",
      pathname := "/images/talos/1.12.0/amd64/default/k/disk.qcow2" }
    "talos" "1.12.0" "amd64" "default" "k" "disk.qcow2" { disk_hash := some "bbb" }
    (by decide) (Or.inl rfl) (by decide) rfl

/-- C2 counterexample: on an upstream 503 the status is passed through but
the response headers are exactly `Content-Type: text/plain` — the
content-hash header is not set on non-success responses. -/
theorem upstream_hash_cex :
    (finishDownload
        (resolveDownload
          { store := fun k =>
              if k = "products:list" then
                some (KVValue.jlist ["product:talos:v1:amd64:default"])
              else if k = "product:talos:v1:amd64:default" then
                some (KVValue.jrecord { meta_hash := some "aaa", disk_hash := some "bbb" })
              else none }
          { protocol := "https:", host := "x.dev",
            pathname := "/images/talos/v1/amd64/default/20251226_02:40/incus.tar.xz" })
        (FetchResult.success { status := 503, body := "", headers := [] })).status = 503 ∧
    (finishDownload
        (resolveDownload
          { store := fun k =>
              if k = "products:list" then
                some (KVValue.jlist ["product:talos:v1:amd64:default"])
              else if k = "product:talos:v1:amd64:default" then
                some (KVValue.jrecord { meta_hash := some "aaa", disk_hash := some "bbb" })
              else none }
          { protocol := "https:", host := "x.dev",
            pathname := "/images/talos/v1/amd64/default/20251226_02:40/incus.tar.xz" })
        (FetchResult.success { status := 503, body := "", headers := [] })).headers =
      [("Content-Type", "text/plain")] ∧
    (finishDownload
        (resolveDownload
          { store := fun k =>
              if k = "products:list" then
                some (KVValue.jlist ["product:talos:v1:amd64:default"])
              else if k = "product:talos:v1:amd64:default" then
                some (KVValue.jrecord { meta_hash := some "aaa", disk_hash := some "bbb" })
              else none }
          { protocol := "https:", host := "x.dev",
            pathname := "/images/talos/v1/amd64/default/20251226_02:40/incus.tar.xz" })
        (FetchResult.success { status := 999, body := "", headers := [] })).status = 500 := by
  refine ⟨?_, ?_, ?_⟩
  · decide
  · decide
  · decide

/-- C2 (amended): for every download request that reaches the fetch stage,
a non-ok upstream response with a status in the `Response`-constructible
range 200–599 is passed through with its status unchanged and the short
diagnostic body; outside that range constructing the diagnostic response
throws a `RangeError`, which the surrounding catch turns into a 500
`Error: ...` response; in both cases the headers are exactly
`Content-Type: text/plain` — in particular no content-hash header is set. -/
theorem upstream_error_passthrough (env : Env) (req : Request)
    (src : String) (hash : Option String) (purl : String) (resp : FetchResponse)
    (hres : resolveDownload env req = PreFetch.fetch src hash purl)
    (hnotok : responseOk resp = false) :
    (200 ≤ resp.status ∧ resp.status ≤ 599 →
      finishDownload (resolveDownload env req) (FetchResult.success resp) =
        { status := resp.status, body := "Upstream error: " ++ jnum resp.status,
          headers := [("Content-Type", "text/plain")] }) ∧
    (¬ (200 ≤ resp.status ∧ resp.status ≤ 599) →
      finishDownload (resolveDownload env req) (FetchResult.success resp) =
        { status := 500, body := "Error: " ++ rangeErrorMsg,
          headers := [("Content-Type", "text/plain")] }) ∧
    alistGet "Incus-Image-Hash"
      (finishDownload (resolveDownload env req) (FetchResult.success resp)).headers = none := by
  have h1 : finishDownload (resolveDownload env req) (FetchResult.success resp) =
      if 200 ≤ resp.status ∧ resp.status ≤ 599 then
        { status := resp.status, body := "Upstream error: " ++ jnum resp.status,
          headers := [("Content-Type", "text/plain")] }
      else
        { status := 500, body := "Error: " ++ rangeErrorMsg,
          headers := [("Content-Type", "text/plain")] } := by
    rw [hres]
    simp [finishDownload, hnotok]
  by_cases hr : 200 ≤ resp.status ∧ resp.status ≤ 599
  · rw [h1, if_pos hr]
    refine ⟨fun _ => rfl, fun h => absurd hr h, ?_⟩
    show alistGet "Incus-Image-Hash" [("Content-Type", "text/plain")] = none
    decide
  · rw [h1, if_neg hr]
    refine ⟨fun h => absurd h hr, fun _ => rfl, ?_⟩
    show alistGet "Incus-Image-Hash" [("Content-Type", "text/plain")] = none
    decide

/-- Witness for `upstream_error_passthrough` on a concrete store and a 503. -/
theorem upstream_error_passthrough_witness :
    finishDownload
        (resolveDownload
          { store := fun k =>
              if k = "product:a:b:c:d" then
                some (KVValue.jrecord { meta_hash := some "aaa" })
              else none }
          { protocol := "https:", host := "h", pathname := "/images/a/b/c/d/e/lxd.tar.xz" })
        (FetchResult.success { status := 503, body := "", headers := [] }) =
      { status := 503, body := "Upstream error: " ++ jnum 503,
        headers := [("Content-Type", "text/plain")] } :=
  (upstream_error_passthrough
    { store := fun k =>
        if k = "product:a:b:c:d" then some (KVValue.jrecord { meta_hash := some "aaa" })
        else none }
    { protocol := "https:", host := "h", pathname := "/images/a/b/c/d/e/lxd.tar.xz" }
    ("https://github.com/" ++ jsOr none CONFIG_GITHUB_ORG ++ "/" ++ "a" ++
      "/releases/download/" ++ "b" ++ "/" ++ ("a" ++ "-" ++ normalizeArch "c" ++
      "-incus.tar.xz"))
    (some "aaa")
    ("https:" ++ "//" ++ "h" ++ "/images/a/b/c/d/e/lxd.tar.xz")
    { status := 503, body := "", headers := [] }
    (by decide) (by decide)).1 (by exact ⟨by norm_num, by norm_num⟩)

/-- C9: if the products-list registry entry is absent or unparsable, both
catalog endpoints succeed (HTTP 200) with well-formed documents whose
products are empty, byte for byte. -/
theorem catalogs_ok_on_missing_list (store : Store)
    (h : store "products:list" = none ∨ store "products:list" = some KVValue.malformed) :
    handleIndex store =
      { status := 200
        body := "\x7b\"index\":\x7b\"images\":\x7b\"datatype\":\"image-downloads\",\"path\":\"streams/v1/images.json\",\"format\":\"products:1.0\",\"products\":[]\x7d\x7d,\"format\":\"index:1.0\"\x7d"
        headers := [("Content-Type", "application/json"),
          ("Access-Control-Allow-Origin", "*")] } ∧
    ∀ now : Nat, handleImages store now =
      { status := 200
        body := "\x7b\"format\":\"products:1.0\",\"content_id\":\"images\",\"datatype\":\"image-downloads\",\"products\":\x7b\x7d\x7d"
        headers := [("Content-Type", "application/json"),
          ("Access-Control-Allow-Origin", "*")] } := by
  have hprod : getAllProducts store = [] := by
    rcases h with h | h <;> simp [getAllProducts, h]
  constructor
  · rw [handleIndex, handleIndexProducts, hprod]
    rfl
  · intro now
    rw [handleImages, getAllImageMetadata, hprod]
    rfl

/-- Witness for `catalogs_ok_on_missing_list` on the empty store. -/
theorem catalogs_ok_on_missing_list_witness :
    handleIndex (fun _ => none) =
      { status := 200
        body := "\x7b\"index\":\x7b\"images\":\x7b\"datatype\":\"image-downloads\",\"path\":\"streams/v1/images.json\",\"format\":\"products:1.0\",\"products\":[]\x7d\x7d,\"format\":\"index:1.0\"\x7d"
        headers := [("Content-Type", "application/json"),
          ("Access-Control-Allow-Origin", "*")] } ∧
    handleImages (fun _ => none) 12345 =
      { status := 200
        body := "\x7b\"format\":\"products:1.0\",\"content_id\":\"images\",\"datatype\":\"image-downloads\",\"products\":\x7b\x7d\x7d"
        headers := [("Content-Type", "application/json"),
          ("Access-Control-Allow-Origin", "*")] } :=
  ⟨(catalogs_ok_on_missing_list (fun _ => none) (Or.inl rfl)).1,
    (catalogs_ok_on_missing_list (fun _ => none) (Or.inl rfl)).2 12345⟩

theorem dataMk (l : List Char) : (String.mk l).data = l := rfl

/-- Splitting a join recovers the parts when no part contains the
separator. -/
theorem splitOnC_joinC (sep : Char) (parts : List (List Char)) (hne : parts ≠ [])
    (h : ∀ p ∈ parts, sep ∉ p) : splitOnC sep (joinC sep parts) = parts := by
  induction parts with
  | nil => exact absurd rfl hne
  | cons s ss ih =>
    rw [joinC_cons]
    by_cases hss : ss = []
    · subst hss
      rw [if_pos rfl, splitOnC_no_sep _ _ (h s (List.mem_cons_self s []))]
    · rw [if_neg hss, splitOnC_sep_cons _ _ _ (h s (List.mem_cons_self s ss)),
        ih hss (fun p hp => h p (List.mem_cons_of_mem s hp))]

theorem jsSplit_data (k : String) (l : List String) (h : jsSplit ':' k = l) :
    splitOnC ':' k.data = l.map String.data := by
  have h2 := congrArg (List.map String.data) h
  rw [jsSplit, List.map_map] at h2
  have hcomp : (String.data ∘ String.mk) = id := rfl
  rw [hcomp, List.map_id] at h2
  exact h2

/-- The wire-key conversion is injective on keys it does not drop. -/
theorem registryKeyToWireKey_inj (k1 k2 w : String)
    (h1 : registryKeyToWireKey k1 = some w) (h2 : registryKeyToWireKey k2 = some w) :
    k1 = k2 := by
  have main : ∀ k : String, registryKeyToWireKey k = some w →
      k.data = ("product").data ++ ':' :: joinC ':' ((splitOnC ':' w.data)) ∧
      (splitOnC ':' w.data).length = 4 := by
    intro k hk
    rw [registryKeyToWireKey] at hk
    rcases hsplit : jsSplit ':' k with _ | ⟨p0, rest⟩ <;> rw [hsplit] at hk
    · exact absurd hk (by simp)
    · rcases rest with _ | ⟨a, rest⟩
      · exact absurd hk (by simp)
      · rcases rest with _ | ⟨b, rest⟩
        · exact absurd hk (by simp)
        · rcases rest with _ | ⟨c, rest⟩
          · exact absurd hk (by simp)
          · rcases rest with _ | ⟨d, rest⟩
            · exact absurd hk (by simp)
            · rcases rest with _ | ⟨e, rest⟩
              · rw [show (match [p0, a, b, c, d] with
                    | [p0, a, b, c, d] =>
                      if p0 = "product" then some (jsJoin ':' [a, b, c, d]) else none
                    | x => none) =
                    (if p0 = "product" then some (jsJoin ':' [a, b, c, d]) else none)
                    from rfl] at hk
                by_cases hp : p0 = "product"
                · rw [if_pos hp] at hk
                  have hw : w = jsJoin ':' [a, b, c, d] := (Option.some.inj hk).symm
                  have hsegs := jsSplit_data k _ hsplit
                  have hnosep := mem_splitOnC_no_sep ':' k.data
                  rw [hsegs] at hnosep
                  have hwdata : w.data = joinC ':' [a.data, b.data, c.data, d.data] := by
                    rw [hw]; rfl
                  have hwsplit : splitOnC ':' w.data = [a.data, b.data, c.data, d.data] := by
                    rw [hwdata]
                    refine splitOnC_joinC ':' _ (by simp) ?_
                    intro p hp2
                    simp only [List.mem_cons, List.not_mem_nil, or_false] at hp2
                    rcases hp2 with h | h | h | h
                    · exact h ▸ hnosep a.data (by simp)
                    · exact h ▸ hnosep b.data (by simp)
                    · exact h ▸ hnosep c.data (by simp)
                    · exact h ▸ hnosep d.data (by simp)
                  constructor
                  · have hk1 : k.data = joinC ':' (splitOnC ':' k.data) :=
                      (joinC_splitOnC ':' k.data).symm
                    rw [hsegs, hp] at hk1
                    rw [hwsplit, hk1]
                    rfl
                  · rw [hwsplit]; rfl
                · rw [if_neg hp] at hk
                  exact absurd hk (by simp)
              · exact absurd hk (by simp)
  have m1 := (main k1 h1).1
  have m2 := (main k2 h2).1
  have : k1.data = k2.data := by rw [m1, m2]
  calc k1 = String.mk k1.data := rfl
  _ = String.mk k2.data := by rw [this]
  _ = k2 := rfl

/-- `handleIndexProducts` as a single `filterMap`. -/
theorem handleIndexProducts_eq (store : Store) :
    handleIndexProducts store = (getAllProducts store).filterMap registryKeyToWireKey := by
  rw [handleIndexProducts, List.filterMap_map]
  rfl

/-- C7 counterexample: a Product Key Set with a duplicated entry yields a
`products` list with a duplicate wire key. -/
theorem index_nodup_cex :
    ¬ (handleIndexProducts (fun k =>
        if k = "products:list" then
          some (KVValue.jlist ["product:a:b:c:d", "product:a:b:c:d"])
        else none)).Nodup := by
  decide

/-- C7 (amended): if the Product Key Set has no duplicate entries then the
index `products` list has no duplicate wire keys; unconditionally, every
wire key in the list is the conversion of some entry of the set (dropped
entries are simply absent, never null). -/
theorem index_products_spec (store : Store) (hnd : (getAllProducts store).Nodup) :
    (handleIndexProducts store).Nodup ∧
    ∀ w ∈ handleIndexProducts store,
      ∃ k ∈ getAllProducts store, registryKeyToWireKey k = some w := by
  rw [handleIndexProducts_eq]
  constructor
  · refine List.Nodup.filterMap ?_ hnd
    intro a a' b hb hb'
    exact registryKeyToWireKey_inj a a' b hb hb'
  · intro w hw
    rcases List.mem_filterMap.mp hw with ⟨k, hk, hke⟩
    exact ⟨k, hk, hke⟩

/-- Witness for `index_products_spec` on a two-entry set. -/
theorem index_products_spec_witness :
    (handleIndexProducts (fun k =>
        if k = "products:list" then
          some (KVValue.jlist ["product:a:b:c:d", "product:a2:b:c:d", "junk"])
        else none)).Nodup ∧
    ∀ w ∈ handleIndexProducts (fun k =>
        if k = "products:list" then
          some (KVValue.jlist ["product:a:b:c:d", "product:a2:b:c:d", "junk"])
        else none),
      ∃ k ∈ getAllProducts (fun k =>
        if k = "products:list" then
          some (KVValue.jlist ["product:a:b:c:d", "product:a2:b:c:d", "junk"])
        else none), registryKeyToWireKey k = some w :=
  index_products_spec (fun k =>
    if k = "products:list" then
      some (KVValue.jlist ["product:a:b:c:d", "product:a2:b:c:d", "junk"])
    else none) (by decide)

theorem alistSet_keys {α : Type} (k : String) (v : α) (l : List (String × α)) :
    ∀ w, w ∈ (alistSet k v l).map Prod.fst → w = k ∨ w ∈ l.map Prod.fst := by
  induction l with
  | nil =>
    intro w h
    simp only [alistSet, List.map_cons, List.map_nil, List.mem_singleton] at h
    exact Or.inl h
  | cons p rest ih =>
    intro w h
    simp only [alistSet] at h
    by_cases hk : p.1 = k
    · rw [if_pos hk] at h
      simp only [List.map_cons, List.mem_cons] at h
      rcases h with h | h
      · exact Or.inl h
      · exact Or.inr (by rw [List.map_cons]; exact List.mem_cons_of_mem _ h)
    · rw [if_neg hk] at h
      simp only [List.map_cons, List.mem_cons] at h
      rcases h with h | h
      · exact Or.inr (by rw [List.map_cons]; exact h ▸ List.mem_cons_self p.1 _)
      · rcases ih w h with h2 | h2
        · exact Or.inl h2
        · exact Or.inr (by rw [List.map_cons]; exact List.mem_cons_of_mem _ h2)

/-- A key added to the images object by one loop iteration is either an
existing key or the wire key of the processed registry entry. -/
theorem processProduct_keys (now : Nat) (store : Store)
    (acc : List (String × SSProduct)) (k : String) :
    ∀ w, w ∈ (processProduct now store acc k).map Prod.fst →
      w ∈ acc.map Prod.fst ∨ registryKeyToWireKey k = some w := by
  intro w hw
  rw [processProduct] at hw
  split at hw
  · rename_i p0 os version arch variant hsplit
    split at hw
    · rename_i hp
      split at hw
      · exact Or.inl hw
      · rename_i v hstore
        split at hw
        · exact Or.inl hw
        · rename_i metadata hrec
          rcases alistSet_keys _ _ _ w hw with h | h
          · refine Or.inr ?_
            rw [registryKeyToWireKey, hsplit]
            show (if p0 = "product" then some (jsJoin ':' [os, version, arch, variant])
              else none) = some w
            rw [if_pos hp, jsJoin4, h]
          · exact Or.inl h
    · exact Or.inl hw
  · exact Or.inl hw

theorem fold_keys (now : Nat) (store : Store) :
    ∀ (l : List String) (acc : List (String × SSProduct)) (w : String),
      w ∈ (l.foldl (processProduct now store) acc).map Prod.fst →
      w ∈ acc.map Prod.fst ∨ ∃ k ∈ l, registryKeyToWireKey k = some w := by
  intro l
  induction l with
  | nil => intro acc w h; exact Or.inl h
  | cons k ks ih =>
    intro acc w h
    rcases ih (processProduct now store acc k) w h with h2 | ⟨k2, hk2, he⟩
    · rcases processProduct_keys now store acc k w h2 with h3 | h3
      · exact Or.inl h3
      · exact Or.inr ⟨k, List.mem_cons_self k ks, h3⟩
    · exact Or.inr ⟨k2, List.mem_cons_of_mem _ hk2, he⟩

/-- C10: every wire key in the `buildImages` products map also appears in
the `buildIndex` products list built from the same registry state; the
converse fails on some state (a listed key whose record is absent is in the
index but not in the images map). -/
theorem images_keys_subset_index :
    (∀ (store : Store) (now : Nat) (w : String),
      w ∈ ((getAllImageMetadata store now).products.map Prod.fst) →
      w ∈ handleIndexProducts store) ∧
    (∃ store : Store, ∃ w : String, w ∈ handleIndexProducts store ∧
      ∀ now : Nat, w ∉ ((getAllImageMetadata store now).products.map Prod.fst)) := by
  constructor
  · intro store now w h
    have hprod : (getAllImageMetadata store now).products =
        (getAllProducts store).foldl (processProduct now store) [] := rfl
    rw [hprod] at h
    rcases fold_keys now store (getAllProducts store) [] w h with h2 | ⟨k, hk, he⟩
    · simp at h2
    · rw [handleIndexProducts_eq]
      exact List.mem_filterMap.mpr ⟨k, hk, he⟩
  · refine ⟨fun k => if k = "products:list" then
        some (KVValue.jlist ["product:a:b:c:d"]) else none, "a:b:c:d", by decide, ?_⟩
    intro now hmem
    have hempty : (getAllImageMetadata (fun k => if k = "products:list" then
        some (KVValue.jlist ["product:a:b:c:d"]) else none) now).products = [] := rfl
    rw [hempty] at hmem
    simp at hmem

/-- Witness for `images_keys_subset_index` on a store with one resolvable
record. -/
theorem images_keys_subset_index_witness :
    "talos:v1:amd64:default" ∈ handleIndexProducts (fun k =>
      if k = "products:list" then some (KVValue.jlist ["product:talos:v1:amd64:default"])
      else if k = "product:talos:v1:amd64:default" then
        some (KVValue.jrecord { creation_date := some 5, meta_hash := some "aaa" })
      else none) :=
  images_keys_subset_index.1 (fun k =>
      if k = "products:list" then some (KVValue.jlist ["product:talos:v1:amd64:default"])
      else if k = "product:talos:v1:amd64:default" then
        some (KVValue.jrecord { creation_date := some 5, meta_hash := some "aaa" })
      else none) 0 "talos:v1:amd64:default" (by decide)

/-- One loop iteration does not depend on the clock when the record it
parses has a truthy creation date. -/
theorem processProduct_time_indep (store : Store) (k : String)
    (h : ∀ v m, store k = some v → parseRecord v = some m →
      m.creation_date ≠ none ∧ m.creation_date ≠ some 0)
    (acc : List (String × SSProduct)) (t1 t2 : Nat) :
    processProduct t1 store acc k = processProduct t2 store acc k := by
  rcases hsplit : jsSplit ':' k with _ | ⟨p0, _ | ⟨os, _ | ⟨version, _ |
      ⟨arch, _ | ⟨variant, _ | ⟨e, rest⟩⟩⟩⟩⟩⟩
  · simp only [processProduct, hsplit]
  · simp only [processProduct, hsplit]
  · simp only [processProduct, hsplit]
  · simp only [processProduct, hsplit]
  · simp only [processProduct, hsplit]
  · by_cases hp : p0 = "product"
    · rcases hstore : store k with _ | v
      · simp only [processProduct, hsplit, hstore, if_pos hp]
      · rcases hrec : parseRecord v with _ | m
        · simp only [processProduct, hsplit, hstore, hrec, if_pos hp]
        · obtain ⟨hn1, hn2⟩ := h v m hstore hrec
          rcases hcd : m.creation_date with _ | n
          · exact absurd hcd hn1
          · have hn0 : n ≠ 0 := fun h0 => hn2 (by rw [hcd, h0])
            simp only [processProduct, hsplit, hstore, hrec, hcd, if_pos hp, if_neg hn0]
    · simp only [processProduct, hsplit, if_neg hp]
  · simp only [processProduct, hsplit]

theorem foldl_time_indep (store : Store) (t1 t2 : Nat) :
    ∀ l : List String,
      (∀ k ∈ l, ∀ v m, store k = some v → parseRecord v = some m →
        m.creation_date ≠ none ∧ m.creation_date ≠ some 0) →
      ∀ acc, l.foldl (processProduct t1 store) acc = l.foldl (processProduct t2 store) acc := by
  intro l
  induction l with
  | nil => intro _ acc; rw [List.foldl_nil, List.foldl_nil]
  | cons k ks ih =>
    intro h acc
    rw [List.foldl_cons, List.foldl_cons,
      processProduct_time_indep store k (h k (List.mem_cons_self k ks)) acc t1 t2]
    exact ih (fun k2 hk2 => h k2 (List.mem_cons_of_mem _ hk2)) _

set_option maxRecDepth 100000 in
/-- C4 counterexample: with a record lacking a creation date, two calls at
different times produce different bytes. -/
theorem buildImages_idem_cex :
    handleImages (fun k =>
        if k = "products:list" then some (KVValue.jlist ["product:talos:v1:amd64:default"])
        else if k = "product:talos:v1:amd64:default" then
          some (KVValue.jrecord { meta_hash := some "aaa" })
        else none) 0 ≠
      handleImages (fun k =>
        if k = "products:list" then some (KVValue.jlist ["product:talos:v1:amd64:default"])
        else if k = "product:talos:v1:amd64:default" then
          some (KVValue.jrecord { meta_hash := some "aaa" })
        else none) 60 := by
  decide

/-- C4 (amended): `buildImages` is idempotent — two calls at arbitrary
clock readings yield identical bytes — for every registry state in which
every record that is read and parsed carries a truthy (present and
nonzero) creation timestamp.  A record without one makes the output depend
on the clock, since the version key is derived from `Date.now()`. -/
theorem buildImages_idem (store : Store)
    (h : ∀ k ∈ getAllProducts store, ∀ v m, store k = some v → parseRecord v = some m →
      m.creation_date ≠ none ∧ m.creation_date ≠ some 0) :
    ∀ t1 t2 : Nat, handleImages store t1 = handleImages store t2 := by
  intro t1 t2
  have hfold := foldl_time_indep store t1 t2 (getAllProducts store) h []
  rw [handleImages, handleImages, getAllImageMetadata, getAllImageMetadata, hfold]

set_option maxRecDepth 100000 in
/-- Witness for `buildImages_idem` at two distinct clock readings. -/
theorem buildImages_idem_witness :
    handleImages (fun k =>
        if k = "products:list" then some (KVValue.jlist ["product:talos:v1:amd64:default"])
        else if k = "product:talos:v1:amd64:default" then
          some (KVValue.jrecord { creation_date := some 5, meta_hash := some "aaa" })
        else none) 3 =
      handleImages (fun k =>
        if k = "products:list" then some (KVValue.jlist ["product:talos:v1:amd64:default"])
        else if k = "product:talos:v1:amd64:default" then
          some (KVValue.jrecord { creation_date := some 5, meta_hash := some "aaa" })
        else none) 99 :=
  buildImages_idem _ (by
    intro k hk v m hv hm
    have hlist : getAllProducts (fun k =>
        if k = "products:list" then some (KVValue.jlist ["product:talos:v1:amd64:default"])
        else if k = "product:talos:v1:amd64:default" then
          some (KVValue.jrecord { creation_date := some 5, meta_hash := some "aaa" })
        else none) = ["product:talos:v1:amd64:default"] := rfl
    rw [hlist] at hk
    have hk2 : k = "product:talos:v1:amd64:default" := by
      simpa using hk
    subst hk2
    have hv2 : some (KVValue.jrecord
        { creation_date := some 5, meta_hash := some "aaa" }) = some v := hv
    have hv3 : v = KVValue.jrecord { creation_date := some 5, meta_hash := some "aaa" } :=
      (Option.some.inj hv2).symm
    subst hv3
    have hm2 : m = { creation_date := some 5, meta_hash := some "aaa" } :=
      (Option.some.inj hm).symm
    subst hm2
    exact ⟨by decide, by decide⟩) 3 99

/-! ### Decimal-string comparison infrastructure (for the version key) -/

theorem digitChar_lt : ∀ a, a < 10 → ∀ b, b < 10 →
    ((Nat.digitChar a < Nat.digitChar b) ↔ a < b) := by decide

theorem digitChar_inj : ∀ a, a < 10 → ∀ b, b < 10 →
    ((Nat.digitChar a = Nat.digitChar b) ↔ a = b) := by decide

theorem padDigits_length (k : Nat) : ∀ n, (padDigits k n).length = k := by
  induction k with
  | zero => intro n; rfl
  | succ k ih => intro n; simp [padDigits, ih]

theorem lexCons (x y : Char) (l1 l2 : List Char) :
    List.Lex (· < ·) (x :: l1) (y :: l2) ↔ x < y ∨ (x = y ∧ List.Lex (· < ·) l1 l2) := by
  constructor
  · intro h
    cases h with
    | cons h => exact Or.inr ⟨rfl, h⟩
    | rel h => exact Or.inl h
  · rintro (h | ⟨rfl, h⟩)
    · exact List.Lex.rel h
    · exact List.Lex.cons h

theorem lexCons_same (c : Char) (l1 l2 : List Char) :
    List.Lex (· < ·) (c :: l1) (c :: l2) ↔ List.Lex (· < ·) l1 l2 := by
  rw [lexCons]
  simp [lt_irrefl]

theorem lex_append_iff (a : List Char) : ∀ (b c d : List Char), a.length = b.length →
    (List.Lex (· < ·) (a ++ c) (b ++ d) ↔
      List.Lex (· < ·) a b ∨ (a = b ∧ List.Lex (· < ·) c d)) := by
  induction a with
  | nil =>
    intro b c d h
    cases b with
    | nil => simp
    | cons y ys => simp at h
  | cons x xs ih =>
    intro b c d h
    cases b with
    | nil => simp at h
    | cons y ys =>
      simp only [List.cons_append]
      rw [lexCons, lexCons, ih ys c d (by simpa using h)]
      constructor
      · rintro (h1 | ⟨rfl, h2 | ⟨rfl, h3⟩⟩)
        · exact Or.inl (Or.inl h1)
        · exact Or.inl (Or.inr ⟨rfl, h2⟩)
        · exact Or.inr ⟨rfl, h3⟩
      · rintro ((h1 | ⟨rfl, h2⟩) | ⟨heq, h3⟩)
        · exact Or.inl h1
        · exact Or.inr ⟨rfl, Or.inl h2⟩
        · cases heq
          exact Or.inr ⟨rfl, Or.inr ⟨rfl, h3⟩⟩

theorem padDigits_inj (k : Nat) : ∀ a b : Nat, a < 10 ^ k → b < 10 ^ k →
    (padDigits k a = padDigits k b ↔ a = b) := by
  induction k with
  | zero =>
    intro a b ha hb
    rw [pow_zero] at ha hb
    constructor
    · intro _; omega
    · intro h; rw [h]
  | succ k ih =>
    intro a b ha hb
    rw [pow_succ] at ha hb
    have ha10 : a / 10 < 10 ^ k := by omega
    have hb10 : b / 10 < 10 ^ k := by omega
    simp only [padDigits]
    constructor
    · intro h
      obtain ⟨h1, h2⟩ := List.append_inj h (by rw [padDigits_length, padDigits_length])
      have e1 : a / 10 = b / 10 := (ih _ _ ha10 hb10).mp h1
      have e2 : a % 10 = b % 10 := by
        have h3 : Nat.digitChar (a % 10) = Nat.digitChar (b % 10) := by
          simpa using h2
        exact (digitChar_inj _ (by omega) _ (by omega)).mp h3
      omega
    · intro h; rw [h]

theorem padDigits_lex (k : Nat) : ∀ a b : Nat, a < 10 ^ k → b < 10 ^ k →
    (List.Lex (· < ·) (padDigits k a) (padDigits k b) ↔ a < b) := by
  induction k with
  | zero =>
    intro a b ha hb
    rw [pow_zero] at ha hb
    constructor
    · intro h
      exact absurd h (List.Lex.not_nil_right _ _)
    · intro h; omega
  | succ k ih =>
    intro a b ha hb
    rw [pow_succ] at ha hb
    have ha10 : a / 10 < 10 ^ k := by omega
    have hb10 : b / 10 < 10 ^ k := by omega
    simp only [padDigits]
    rw [lex_append_iff _ _ _ _ (by rw [padDigits_length, padDigits_length]),
      ih _ _ ha10 hb10, padDigits_inj k _ _ ha10 hb10, List.Lex.singleton_iff,
      digitChar_lt _ (by omega) _ (by omega)]
    omega

/-- String order in terms of lexicographic character order. -/
theorem strLe_iff (s t : String) : s ≤ t ↔ ¬ List.Lex (· < ·) t.data s.data := by
  rw [String.le_iff_toList_le, ← not_lt]
  exact not_congr Iff.rfl

/-- The day count contributed by all years before calendar year `a + 1`
(era and year-of-era combined). -/
def yAux (a : Nat) : Nat :=
  a / 400 * 146097 + (a % 400 * 365 + a % 400 / 4 - a % 400 / 100)

theorem daysFromCivil_eq (y m d : Nat) :
    daysFromCivil y m d =
      yAux (if m ≤ 2 then y - 1 else y) +
        ((153 * (if 2 < m then m - 3 else m + 9) + 2) / 5 + d - 1) - 719468 := by
  rw [daysFromCivil, yAux]
  omega

theorem yAux_step (a : Nat) : yAux a + 365 ≤ yAux (a + 1) := by
  rw [yAux, yAux]
  omega

theorem yGap (k a : Nat) : yAux a + 365 * k ≤ yAux (a + k) := by
  induction k with
  | zero => simp
  | succ k ih =>
    have h1 := yAux_step (a + k)
    have h2 : a + (k + 1) = a + k + 1 := by omega
    rw [h2]
    omega

/-- `daysFromCivil` is monotone for the lexicographic order on calendar
dates, given the validity bounds the algorithm guarantees. -/
theorem daysFromCivil_le (y1 m1 d1 y2 m2 d2 : Nat)
    (hy1 : 1970 ≤ y1) (hm1a : 1 ≤ m1) (hm1b : m1 ≤ 12) (hd1a : 1 ≤ d1) (hd1b : d1 ≤ 31)
    (hm2a : 1 ≤ m2) (hm2b : m2 ≤ 12) (hd2a : 1 ≤ d2) (hd2b : d2 ≤ 31)
    (hdoy1 : (153 * (if 2 < m1 then m1 - 3 else m1 + 9) + 2) / 5 + d1 - 1 ≤ 365)
    (hlex : y1 < y2 ∨ (y1 = y2 ∧ (m1 < m2 ∨ (m1 = m2 ∧ d1 ≤ d2)))) :
    daysFromCivil y1 m1 d1 ≤ daysFromCivil y2 m2 d2 := by
  rw [daysFromCivil_eq, daysFromCivil_eq]
  by_cases hc1 : m1 ≤ 2 <;> by_cases hc2 : m2 ≤ 2
  · rw [if_pos hc1, if_pos hc2, if_neg (show ¬ 2 < m1 by omega),
      if_neg (show ¬ 2 < m2 by omega)]
    rw [if_neg (show ¬ 2 < m1 by omega)] at hdoy1
    have hgap := yGap (y2 - 1 - (y1 - 1)) (y1 - 1)
    have he : y1 - 1 + (y2 - 1 - (y1 - 1)) = y2 - 1 := by omega
    rw [he] at hgap
    omega
  · rw [if_pos hc1, if_neg hc2, if_neg (show ¬ 2 < m1 by omega),
      if_pos (show 2 < m2 by omega)]
    rw [if_neg (show ¬ 2 < m1 by omega)] at hdoy1
    have hgap := yGap (y2 - (y1 - 1)) (y1 - 1)
    have he : y1 - 1 + (y2 - (y1 - 1)) = y2 := by omega
    rw [he] at hgap
    omega
  · rw [if_neg hc1, if_pos hc2, if_pos (show 2 < m1 by omega),
      if_neg (show ¬ 2 < m2 by omega)]
    rw [if_pos (show 2 < m1 by omega)] at hdoy1
    have hgap := yGap (y2 - 1 - y1) y1
    have he : y1 + (y2 - 1 - y1) = y2 - 1 := by omega
    rw [he] at hgap
    omega
  · rw [if_neg hc1, if_neg hc2, if_pos (show 2 < m1 by omega),
      if_pos (show 2 < m2 by omega)]
    rw [if_pos (show 2 < m1 by omega)] at hdoy1
    have hgap := yGap (y2 - y1) y1
    have he : y1 + (y2 - y1) = y2 := by omega
    rw [he] at hgap
    omega

/-- Strictly later days have lexicographically strictly later civil dates. -/
theorem civil_lex (z1 z2 : Nat) (hz2 : z2 ≤ maxDay) (hlt : z1 < z2) :
    (civilFromDays z1).1 < (civilFromDays z2).1 ∨
      ((civilFromDays z1).1 = (civilFromDays z2).1 ∧
        ((civilFromDays z1).2.1 < (civilFromDays z2).2.1 ∨
          ((civilFromDays z1).2.1 = (civilFromDays z2).2.1 ∧
            (civilFromDays z1).2.2 < (civilFromDays z2).2.2))) := by
  obtain ⟨a1, a2, a3, a4, a5, a6, a7, a8⟩ :=
    civilFromDays_spec z1 (by rw [maxDay] at hz2 ⊢; omega)
  obtain ⟨b1, b2, b3, b4, b5, b6, b7, b8⟩ := civilFromDays_spec z2 hz2
  rcases Nat.lt_trichotomy (civilFromDays z1).1 (civilFromDays z2).1 with h | h | h
  · exact Or.inl h
  · rcases Nat.lt_trichotomy (civilFromDays z1).2.1 (civilFromDays z2).2.1 with hm | hm | hm
    · exact Or.inr ⟨h, Or.inl hm⟩
    · rcases Nat.lt_trichotomy (civilFromDays z1).2.2 (civilFromDays z2).2.2 with hd | hd | hd
      · exact Or.inr ⟨h, Or.inr ⟨hm, hd⟩⟩
      · exfalso
        rw [h, hm, hd] at a7
        omega
      · exfalso
        have hle := daysFromCivil_le (civilFromDays z2).1 (civilFromDays z2).2.1
          (civilFromDays z2).2.2 (civilFromDays z1).1 (civilFromDays z1).2.1
          (civilFromDays z1).2.2 b1 b3 b4 b5 b6 a3 a4 a5 a6 b8
          (Or.inr ⟨h.symm, Or.inr ⟨hm.symm, Nat.le_of_lt hd⟩⟩)
        rw [a7, b7] at hle
        omega
    · exfalso
      have hle := daysFromCivil_le (civilFromDays z2).1 (civilFromDays z2).2.1
        (civilFromDays z2).2.2 (civilFromDays z1).1 (civilFromDays z1).2.1
        (civilFromDays z1).2.2 b1 b3 b4 b5 b6 a3 a4 a5 a6 b8
        (Or.inr ⟨h.symm, Or.inl hm⟩)
      rw [a7, b7] at hle
      omega
  · exfalso
    have hle := daysFromCivil_le (civilFromDays z2).1 (civilFromDays z2).2.1
      (civilFromDays z2).2.2 (civilFromDays z1).1 (civilFromDays z1).2.1
      (civilFromDays z1).2.2 b1 b3 b4 b5 b6 a3 a4 a5 a6 b8 (Or.inl h)
    rw [a7, b7] at hle
    omega

/-- For four-digit years the JS decimal print equals the four-digit pad. -/
theorem decRepr_eq_padDigits4 (y : Nat) (h1 : 1000 ≤ y) (h2 : y ≤ 9999) :
    decRepr y = padDigits 4 y := by
  have hb : y / 10 / 10 / 10 < 10 := by omega
  rw [decRepr_step y (by omega), decRepr_step (y / 10) (by omega),
    decRepr_step (y / 10 / 10) (by omega), decRepr_base (y / 10 / 10 / 10) hb]
  simp only [padDigits, List.nil_append]
  rw [Nat.mod_eq_of_lt hb]

/-- The version key string decomposed into its fixed-width fields. -/
theorem versionKey_data (t : Nat) (ht : t ≤ 253402300799) :
    (versionKey t).data =
      padDigits 4 (civilFromDays (t / 86400)).1 ++
        (padDigits 2 (civilFromDays (t / 86400)).2.1 ++
          (padDigits 2 (civilFromDays (t / 86400)).2.2 ++
            ('_' :: (padDigits 2 (t / 3600 % 24) ++ ':' :: padDigits 2 (t / 60 % 60))))) := by
  obtain ⟨h1, h2, _⟩ := civilFromDays_spec (t / 86400) (by rw [maxDay]; omega)
  simp only [versionKey, dataMk]
  rw [decRepr_eq_padDigits4 _ (by omega) h2]
  simp [List.append_assoc]

/-- Lexicographic comparison of two version keys is lexicographic
comparison of their (year, month, day, hour, minute) fields. -/
theorem vk_lex (ta tb : Nat) (hta : ta ≤ 253402300799) (htb : tb ≤ 253402300799) :
    List.Lex (· < ·) (versionKey ta).data (versionKey tb).data ↔
      ((civilFromDays (ta / 86400)).1 < (civilFromDays (tb / 86400)).1 ∨
        ((civilFromDays (ta / 86400)).1 = (civilFromDays (tb / 86400)).1 ∧
          ((civilFromDays (ta / 86400)).2.1 < (civilFromDays (tb / 86400)).2.1 ∨
            ((civilFromDays (ta / 86400)).2.1 = (civilFromDays (tb / 86400)).2.1 ∧
              ((civilFromDays (ta / 86400)).2.2 < (civilFromDays (tb / 86400)).2.2 ∨
                ((civilFromDays (ta / 86400)).2.2 = (civilFromDays (tb / 86400)).2.2 ∧
                  (ta / 3600 % 24 < tb / 3600 % 24 ∨
                    (ta / 3600 % 24 = tb / 3600 % 24 ∧
                      ta / 60 % 60 < tb / 60 % 60)))))))) := by
  obtain ⟨a1, a2, a3, a4, a5, a6, _, _⟩ :=
    civilFromDays_spec (ta / 86400) (by rw [maxDay]; omega)
  obtain ⟨b1, b2, b3, b4, b5, b6, _, _⟩ :=
    civilFromDays_spec (tb / 86400) (by rw [maxDay]; omega)
  rw [versionKey_data ta hta, versionKey_data tb htb]
  rw [lex_append_iff _ _ _ _ (by rw [padDigits_length, padDigits_length]),
    padDigits_lex 4 _ _ (by norm_num; omega) (by norm_num; omega),
    padDigits_inj 4 _ _ (by norm_num; omega) (by norm_num; omega),
    lex_append_iff _ _ _ _ (by rw [padDigits_length, padDigits_length]),
    padDigits_lex 2 _ _ (by norm_num; omega) (by norm_num; omega),
    padDigits_inj 2 _ _ (by norm_num; omega) (by norm_num; omega),
    lex_append_iff _ _ _ _ (by rw [padDigits_length, padDigits_length]),
    padDigits_lex 2 _ _ (by norm_num; omega) (by norm_num; omega),
    padDigits_inj 2 _ _ (by norm_num; omega) (by norm_num; omega),
    lexCons_same,
    lex_append_iff _ _ _ _ (by rw [padDigits_length, padDigits_length]),
    padDigits_lex 2 _ _ (by norm_num; omega) (by norm_num; omega),
    padDigits_inj 2 _ _ (by norm_num; omega) (by norm_num; omega),
    lexCons_same,
    padDigits_lex 2 _ _ (by norm_num; omega) (by norm_num; omega)]

/-- The version key is monotone (as a string) in the timestamp, on the
four-digit-year range. -/
theorem versionKey_mono (t1 t2 : Nat) (h2 : t2 ≤ 253402300799) (hle : t1 ≤ t2) :
    versionKey t1 ≤ versionKey t2 := by
  rw [strLe_iff]
  intro hlex
  rw [vk_lex t2 t1 h2 (by omega)] at hlex
  have hday : t1 / 86400 ≤ t2 / 86400 := Nat.div_le_div_right hle
  rcases Nat.lt_or_ge (t1 / 86400) (t2 / 86400) with hd | hd
  · have hcl := civil_lex (t1 / 86400) (t2 / 86400) (by rw [maxDay]; omega) hd
    omega
  · have heq : t1 / 86400 = t2 / 86400 := by omega
    have hceq : civilFromDays (t1 / 86400) = civilFromDays (t2 / 86400) := by rw [heq]
    have e1 : (civilFromDays (t1 / 86400)).1 = (civilFromDays (t2 / 86400)).1 := by rw [hceq]
    have e2 : (civilFromDays (t1 / 86400)).2.1 = (civilFromDays (t2 / 86400)).2.1 := by
      rw [hceq]
    have e3 : (civilFromDays (t1 / 86400)).2.2 = (civilFromDays (t2 / 86400)).2.2 := by
      rw [hceq]
    have q1 : t1 / 3600 / 24 = t1 / 86400 := by rw [Nat.div_div_eq_div_mul]
    have q2 : t2 / 3600 / 24 = t2 / 86400 := by rw [Nat.div_div_eq_div_mul]
    have q3 : t1 / 60 / 60 = t1 / 3600 := by rw [Nat.div_div_eq_div_mul]
    have q4 : t2 / 60 / 60 = t2 / 3600 := by rw [Nat.div_div_eq_div_mul]
    omega

/-- C6 counterexample: the version key has 14 characters, not 15 (shown
at the epoch, where it is exactly `19700101_00:00`); on a timestamp whose
UTC year has five digits the shape degrades (15 characters, separators
shifted). -/
theorem versionKey_shape_cex :
    (versionKey 0).length = 14 ∧ versionKey 0 = "19700101_00:00" ∧
    (versionKey 253402300800).length = 15 := by
  refine ⟨by decide, by decide, by decide⟩

/-- C6 (amended): the version key derivation is deterministic; for every
timestamp up to the last second of year 9999 it produces a 14-character
string of shape `YYYYMMDD_HH:MM` — four year digits, two zero-padded
digits for month, day, hours, minutes, the underscore at index 8 and the
colon at index 11 — and it is monotonically non-decreasing as a string for
non-decreasing timestamps in that range. -/
theorem versionKey_spec :
    (∀ t1 t2 : Nat, t1 = t2 → versionKey t1 = versionKey t2) ∧
    (∀ t : Nat, t ≤ 253402300799 →
      (versionKey t).length = 14 ∧
      ∃ y m d hh mi, 1970 ≤ y ∧ y ≤ 9999 ∧ 1 ≤ m ∧ m ≤ 12 ∧ 1 ≤ d ∧ d ≤ 31 ∧
        hh < 24 ∧ mi < 60 ∧
        (versionKey t).data = padDigits 4 y ++ (padDigits 2 m ++ (padDigits 2 d ++
          ('_' :: (padDigits 2 hh ++ ':' :: padDigits 2 mi))))) ∧
    (∀ t1 t2 : Nat, t1 ≤ t2 → t2 ≤ 253402300799 → versionKey t1 ≤ versionKey t2) := by
  refine ⟨fun t1 t2 h => by rw [h], ?_,
    fun t1 t2 hle h2 => versionKey_mono t1 t2 h2 hle⟩
  intro t ht
  obtain ⟨h1, h2, h3, h4, h5, h6, _, _⟩ :=
    civilFromDays_spec (t / 86400) (by rw [maxDay]; omega)
  have hlen : (versionKey t).length = 14 := by
    show (versionKey t).data.length = 14
    rw [versionKey_data t ht]
    simp [padDigits_length]
  exact ⟨hlen, (civilFromDays (t / 86400)).1, (civilFromDays (t / 86400)).2.1,
    (civilFromDays (t / 86400)).2.2, t / 3600 % 24, t / 60 % 60,
    h1, h2, h3, h4, h5, h6, Nat.mod_lt _ (by norm_num), Nat.mod_lt _ (by norm_num),
    versionKey_data t ht⟩

/-- Witness for `versionKey_spec` at concrete timestamps. -/
theorem versionKey_spec_witness :
    versionKey 1766716800 = versionKey 1766716800 ∧
    (versionKey 1766716800).length = 14 ∧
    versionKey 0 ≤ versionKey 1766716800 :=
  ⟨versionKey_spec.1 1766716800 1766716800 rfl,
    (versionKey_spec.2.1 1766716800 (by norm_num)).1,
    versionKey_spec.2.2 0 1766716800 (by norm_num) (by norm_num)⟩

end Worker
